import Mathlib

/-!
Verification of the charfinder core: text normalization, the similarity
engine (`fuzzymatchlib.py`), the exact and fuzzy matchers (`core/matching.py`),
the match router (`core/finders.py`), and the name-cache build
(`core/name_cache.py`, `core/unicode_data_loader.py`).

External Python facilities (`unicodedata.normalize`, `str.upper`,
`difflib.SequenceMatcher`, file and network I/O, the Unicode name table) are
modelled as fields of an explicit environment `PyEnv`; everything written in
the repository itself is translated directly.
-/

namespace Charfinder

/-! ### Python string primitives -/

/-- Whitespace recognized by Python's `str.strip()` / `str.split()`
(restricted to the ASCII whitespace characters, which is all the
repository's data contains). -/
def isPySpace (c : Char) : Bool :=
  c = ' ' || c = '\t' || c = '\n' || c = '\r' || c = '\x0b' || c = '\x0c'

def pyStripList (l : List Char) : List Char :=
  ((l.dropWhile isPySpace).reverse.dropWhile isPySpace).reverse

/-- Python `str.strip()` with no argument. -/
def pyStrip (s : String) : String := String.mk (pyStripList s.toList)

/-- Helper for `pySplit`: split on runs of whitespace, discarding empties. -/
def pySplitAux : List Char → List Char → List (List Char)
  | [], acc => if acc.isEmpty then [] else [acc.reverse]
  | c :: cs, acc =>
    if isPySpace c then
      if acc.isEmpty then pySplitAux cs [] else acc.reverse :: pySplitAux cs []
    else pySplitAux cs (c :: acc)

/-- Python `str.split()` with no argument. -/
def pySplit (s : String) : List String := (pySplitAux s.toList []).map String.mk

/-- Does `pat` occur at the head of `hay`? -/
def substrAt : List Char → List Char → Bool
  | [], _ => true
  | _ :: _, [] => false
  | p :: ps, h :: hs => (p == h) && substrAt ps hs

/-- Does `pat` occur contiguously anywhere in `hay`? -/
def containsSub (pat : List Char) : List Char → Bool
  | [] => pat.isEmpty
  | h :: hs => substrAt pat (h :: hs) || containsSub pat hs

/-- Python's `needle in hay` on strings (contiguous substring test). -/
def pyIn (needle hay : String) : Bool := containsSub needle.toList hay.toList

/-- Lexicographic (code-point) order on character lists, as Python compares
strings. -/
def listCharLe : List Char → List Char → Bool
  | [], _ => true
  | _ :: _, [] => false
  | a :: as, b :: bs => if a = b then listCharLe as bs else decide (a < b)

def strLe (a b : String) : Bool := listCharLe a.toList b.toList

def insertStr (x : String) : List String → List String
  | [] => [x]
  | y :: ys => if strLe x y then x :: y :: ys else y :: insertStr x ys

/-- Python `sorted` on a list of strings (insertion sort; equal keys are
identical strings, so stability is irrelevant). -/
def sortStrings (l : List String) : List String := l.foldr insertStr []

/-- Python `str.casefold()` (restricted to ASCII, which is all the algorithm
names the repository uses). -/
def pyCasefold (s : String) : String := String.mk (s.toList.map Char.toLower)

/-- Lookup with Python-dict overwrite semantics (the last binding wins). -/
def dictGet (l : List (Nat × String)) (k : Nat) : Option String :=
  l.foldl (fun acc p => if p.1 = k then some p.2 else acc) none


/-! ### Edit distances

`Levenshtein.ratio` (the python-Levenshtein library used by
`levenshtein_ratio`) computes `(lensum - ldist) / lensum` where `ldist` is the
Levenshtein distance with insertion and deletion cost 1 and substitution
cost 2; `rapidfuzz.fuzz.ratio` computes the normalized insertion/deletion
(indel) distance.  Both are embedded here and proved equal. -/

/-- Number of position-aligned equal characters (Python
`sum(1 for c1, c2 in zip(a, b) if c1 == c2)`). -/
def zipEqCount : List Char → List Char → Nat
  | x :: xs, y :: ys => (if x = y then 1 else 0) + zipEqCount xs ys
  | _, _ => 0

/-- Edit distance with insertions and deletions only (unit cost). -/
def indel_dist (xs ys : List Char) : Nat :=
  match xs, ys with
  | [], ys => ys.length
  | xs, [] => xs.length
  | x :: xs, y :: ys =>
    if x = y then indel_dist xs ys
    else min (indel_dist xs (y :: ys) + 1) (indel_dist (x :: xs) ys + 1)
termination_by (xs.length, ys.length)

/-- Levenshtein distance with weights (1, 1, 2): insertion and deletion
cost 1, substitution cost 2.  This is the `ldist` of `Levenshtein.ratio`. -/
def lev_dist_sub2 (xs ys : List Char) : Nat :=
  match xs, ys with
  | [], ys => ys.length
  | xs, [] => xs.length
  | x :: xs, y :: ys =>
    if x = y then lev_dist_sub2 xs ys
    else min (lev_dist_sub2 xs (y :: ys) + 1)
      (min (lev_dist_sub2 (x :: xs) ys + 1) (lev_dist_sub2 xs ys + 2))
termination_by (xs.length, ys.length)

/-- Standard unit-cost Levenshtein edit distance.  This definition follows
the SPEC's words ("standard (unit-cost) Levenshtein edit distance"); it is
used only to compare the spec's formula with what the code computes. -/
def lev_dist_unit (xs ys : List Char) : Nat :=
  match xs, ys with
  | [], ys => ys.length
  | xs, [] => xs.length
  | x :: xs, y :: ys =>
    if x = y then lev_dist_unit xs ys
    else min (lev_dist_unit xs (y :: ys) + 1)
      (min (lev_dist_unit (x :: xs) ys + 1) (lev_dist_unit xs ys + 1))
termination_by (xs.length, ys.length)

theorem indel_dist_nil_left (ys : List Char) : indel_dist [] ys = ys.length := by
  simp [indel_dist]

theorem indel_dist_nil_right (xs : List Char) : indel_dist xs [] = xs.length := by
  cases xs <;> simp [indel_dist]

theorem indel_dist_cons_cons (x y : Char) (xs ys : List Char) :
    indel_dist (x :: xs) (y :: ys) =
      if x = y then indel_dist xs ys
      else min (indel_dist xs (y :: ys) + 1) (indel_dist (x :: xs) ys + 1) := by
  simp [indel_dist]

theorem lev_dist_sub2_nil_left (ys : List Char) : lev_dist_sub2 [] ys = ys.length := by
  simp [lev_dist_sub2]

theorem lev_dist_sub2_nil_right (xs : List Char) : lev_dist_sub2 xs [] = xs.length := by
  cases xs <;> simp [lev_dist_sub2]

theorem lev_dist_sub2_cons_cons (x y : Char) (xs ys : List Char) :
    lev_dist_sub2 (x :: xs) (y :: ys) =
      if x = y then lev_dist_sub2 xs ys
      else min (lev_dist_sub2 xs (y :: ys) + 1)
        (min (lev_dist_sub2 (x :: xs) ys + 1) (lev_dist_sub2 xs ys + 2)) := by
  simp [lev_dist_sub2]

theorem zipEqCount_comm (xs ys : List Char) : zipEqCount xs ys = zipEqCount ys xs := by
  induction xs generalizing ys with
  | nil => cases ys <;> simp [zipEqCount]
  | cons x xs ih =>
    cases ys with
    | nil => simp [zipEqCount]
    | cons y ys => simp [zipEqCount, ih, eq_comm]

theorem indel_dist_comm (xs ys : List Char) : indel_dist xs ys = indel_dist ys xs :=
  match xs, ys with
  | [], ys => by rw [indel_dist_nil_left, indel_dist_nil_right]
  | x :: xs, [] => by rw [indel_dist_nil_left, indel_dist_nil_right]
  | x :: xs, y :: ys => by
    rw [indel_dist_cons_cons, indel_dist_cons_cons]
    rcases eq_or_ne x y with h | h
    · rw [if_pos h, if_pos h.symm, indel_dist_comm xs ys]
    · rw [if_neg h, if_neg (Ne.symm h), indel_dist_comm xs (y :: ys),
        indel_dist_comm (x :: xs) ys, Nat.min_comm]
termination_by (xs.length, ys.length)

theorem lev_dist_sub2_comm (xs ys : List Char) : lev_dist_sub2 xs ys = lev_dist_sub2 ys xs :=
  match xs, ys with
  | [], ys => by rw [lev_dist_sub2_nil_left, lev_dist_sub2_nil_right]
  | x :: xs, [] => by rw [lev_dist_sub2_nil_left, lev_dist_sub2_nil_right]
  | x :: xs, y :: ys => by
    rw [lev_dist_sub2_cons_cons, lev_dist_sub2_cons_cons]
    rcases eq_or_ne x y with h | h
    · rw [if_pos h, if_pos h.symm, lev_dist_sub2_comm xs ys]
    · rw [if_neg h, if_neg (Ne.symm h), lev_dist_sub2_comm xs (y :: ys),
        lev_dist_sub2_comm (x :: xs) ys, lev_dist_sub2_comm xs ys]
      omega
termination_by (xs.length, ys.length)

/-- Consing a character onto either side changes the indel distance by at
most one, in both directions. -/
theorem indel_dist_cons_le (xs ys : List Char) (x : Char) :
    indel_dist (x :: xs) ys ≤ indel_dist xs ys + 1 ∧
      indel_dist xs ys ≤ indel_dist (x :: xs) ys + 1 :=
  match ys with
  | [] => by
    rw [indel_dist_nil_right, indel_dist_nil_right]
    simp only [List.length_cons]
    omega
  | y :: ys => by
    constructor
    · rw [indel_dist_cons_cons]
      rcases eq_or_ne x y with h | h
      · rw [if_pos h]
        have h2 := (indel_dist_cons_le ys xs y).2
        rw [indel_dist_comm ys xs, indel_dist_comm (y :: ys) xs] at h2
        omega
      · rw [if_neg h]
        exact le_trans (Nat.min_le_left _ _) (le_refl _)
    · rw [indel_dist_cons_cons]
      rcases eq_or_ne x y with h | h
      · rw [if_pos h]
        have h1 := (indel_dist_cons_le ys xs y).1
        rw [indel_dist_comm (y :: ys) xs, indel_dist_comm ys xs] at h1
        omega
      · rw [if_neg h]
        have h1 := (indel_dist_cons_le ys xs y).1
        rw [indel_dist_comm (y :: ys) xs, indel_dist_comm ys xs] at h1
        have h2 := (indel_dist_cons_le xs ys x).2
        omega
termination_by xs.length + ys.length
decreasing_by all_goals simp_arith

/-- Adding a character to the second list raises the indel distance by at
most one. -/
theorem indel_dist_cons_right_le (xs ys : List Char) (y : Char) :
    indel_dist xs (y :: ys) ≤ indel_dist xs ys + 1 := by
  have h := (indel_dist_cons_le ys xs y).1
  rw [indel_dist_comm (y :: ys) xs, indel_dist_comm ys xs] at h
  exact h

/-- The (1,1,2)-weighted Levenshtein distance coincides with the pure
insertion/deletion distance. -/
theorem lev_dist_sub2_eq_indel (xs ys : List Char) :
    lev_dist_sub2 xs ys = indel_dist xs ys :=
  match xs, ys with
  | [], ys => by rw [lev_dist_sub2_nil_left, indel_dist_nil_left]
  | x :: xs, [] => by rw [lev_dist_sub2_nil_right, indel_dist_nil_right]
  | x :: xs, y :: ys => by
    rw [lev_dist_sub2_cons_cons, indel_dist_cons_cons]
    rcases eq_or_ne x y with h | h
    · rw [if_pos h, if_pos h, lev_dist_sub2_eq_indel xs ys]
    · rw [if_neg h, if_neg h, lev_dist_sub2_eq_indel xs (y :: ys),
        lev_dist_sub2_eq_indel (x :: xs) ys, lev_dist_sub2_eq_indel xs ys]
      have hb := indel_dist_cons_right_le xs ys y
      omega
termination_by (xs.length, ys.length)

/-! ### Data model and Python environment -/

/-- One value of the Unicode name cache
(`dict[str, dict[str, str]]` in the source): the `original`/`normalized`
keys are always present, the `alternate`/`alternate_normalized` keys are
optional and always set together. -/
structure CacheEntry where
  original : String
  normalized : String
  alternate : Option String := none
  alternateNormalized : Option String := none
deriving DecidableEq

/-- The external world as the repository's code observes it.  Every field
models a facility the code calls but does not define: Python's `unicodedata`
and `str` methods, `difflib`, the configurable hybrid weights, the Unicode
name table, and the I/O boundary of the cache and the alternate-name source. -/
structure PyEnv where
  /-- `unicodedata.normalize("NFC", ·)` — the repository's
  `DEFAULT_NORMALIZATION_FORM` is the string `"NFC"`. -/
  nfc : String → String
  /-- `unicodedata.normalize("NFKD", ·)`, the form the spec and the source's
  own docstrings describe; used only to state what the code does not do. -/
  nfkd : String → String
  /-- Python `str.upper()`. -/
  upper : String → String
  /-- `difflib.SequenceMatcher(None, a, b).ratio()`. -/
  smRatio : String → String → ℚ
  /-- `FUZZY_HYBRID_WEIGHTS`.  Modelled from the spec: the constant is
  imported from `charfinder.constants` but is not defined in the source files
  provided; the spec describes it as externally configurable per-algorithm
  weights, keyed by the four base algorithm names and summing to 1.0. -/
  weights : List (String × ℚ)
  /-- `unicodedata.name(chr(code), "")`: the canonical name of a codepoint,
  `""` when unnamed. -/
  uname : Nat → String
  /-- The persisted cache file: `none` when `path.exists()` is false,
  otherwise the parsed (`json.load`) content. -/
  cacheFile : Option (List (Char × CacheEntry))
  /-- The local `UnicodeData.txt`: `none` when `UNICODE_DATA_FILE.is_file()`
  is false, `some (.ok text)` when reading succeeds, `some (.error e)` when
  the file exists but `read_text` raises `OSError e`. -/
  altLocalFile : Option (Except String String)
  /-- The network fetch of `UnicodeData.txt`: `.ok text` on success,
  `.error e` when `urlopen` raises. -/
  altDownload : Except String String

/-- The distinct errors the core raises (Python `ValueError`/`TypeError`
subdivided by site, plus an uncaught `OSError` escaping the alternate-name
loader and the `KeyError` of an unhandled algorithm table lookup). -/
inductive Err where
  | emptyQuery : Err
  | invalidMatchMode : String → Err
  | unknownAlgorithm : String → Err
  | invalidAlgorithm : String → Err
  | unsupportedAggFn : String → Err
  | unknownExactMatchMode : String → Err
  | keyError : String → Err
  | altSourceIOError : String → Err
deriving DecidableEq

instance {ε α : Type} [DecidableEq ε] [DecidableEq α] : DecidableEq (Except ε α) := fun x y =>
  match x, y with
  | .ok a, .ok b =>
    if h : a = b then .isTrue (by rw [h]) else .isFalse (fun hc => h (Except.ok.inj hc))
  | .error a, .error b =>
    if h : a = b then .isTrue (by rw [h]) else .isFalse (fun hc => h (Except.error.inj hc))
  | .ok _, .error _ => .isFalse (fun hc => Except.noConfusion hc)
  | .error _, .ok _ => .isFalse (fun hc => Except.noConfusion hc)

/-- `finders.MatchTuple`: `(code, char, name, score)`; the matchers in
`core/matching.py` return plain tuples with exactly these components and the
router rewraps them unchanged. -/
structure MatchTuple where
  code : Nat
  char : Char
  name : String
  score : Option ℚ
deriving DecidableEq

/-- `types.FuzzyMatchContext` (the `verbose`/`use_color` fields only drive
logging and are omitted). -/
structure FuzzyMatchContext where
  threshold : ℚ
  fuzzyAlgo : String
  matchMode : String
  aggFn : String
  query : String

/-- `types.SearchConfig` (again without the logging-only
`verbose`/`use_color` fields). -/
structure SearchConfig where
  fuzzy : Bool
  threshold : ℚ
  nameCache : Option (List (Char × CacheEntry))
  fuzzyAlgo : String
  fuzzyMatchMode : String
  exactMatchMode : String
  aggFn : String
  preferFuzzy : Bool

/-! ### Text normalizer (`utils/normalizer.py`) -/

/-- `normalize(text) = unicodedata.normalize(DEFAULT_NORMALIZATION_FORM, text).upper()`
with `DEFAULT_NORMALIZATION_FORM = "NFC"` (`constants.py`). -/
def normalize (env : PyEnv) (text : String) : String := env.upper (env.nfc text)

/-! ### Similarity engine (`fuzzymatchlib.py`) -/

/-- `simple_ratio`: position-aligned equal characters over the longer
length, `0.0` when both strings are empty. -/
def simple_ratio (a b : String) : ℚ :=
  if 0 < max a.length b.length then
    (zipEqCount a.toList b.toList : ℚ) / (max a.length b.length : ℚ)
  else 0

/-- `normalized_ratio`: the same count computed on the
NFC-normalized, uppercased forms of the inputs. -/
def normalized_ratio (env : PyEnv) (a b : String) : ℚ :=
  let na := env.upper (env.nfc a)
  let nb := env.upper (env.nfc b)
  if 0 < max na.length nb.length then
    (zipEqCount na.toList nb.toList : ℚ) / (max na.length nb.length : ℚ)
  else 0

/-- `Levenshtein.ratio(a, b)`: `(lensum - ldist) / lensum` where `ldist` is
the (1,1,2)-weighted Levenshtein distance; `1.0` when both are empty. -/
def levenshtein_ratio (a b : String) : ℚ :=
  if a.length + b.length = 0 then 1
  else ((a.length + b.length : ℚ) - lev_dist_sub2 a.toList b.toList) / (a.length + b.length : ℚ)

/-- `rapidfuzz.fuzz.ratio`: the normalized indel similarity scaled to
0–100; `100.0` when both strings are empty. -/
def fuzzRatio100 (a b : String) : ℚ :=
  if a.length + b.length = 0 then 100
  else 100 * (((a.length + b.length : ℚ) - indel_dist a.toList b.toList) / (a.length + b.length : ℚ))

/-- The token-sort preprocessing of `rapidfuzz.fuzz.token_sort_ratio`:
whitespace-split, sort, rejoin with single spaces. -/
def tokenSortPrep (s : String) : String := String.intercalate " " (sortStrings (pySplit s))

/-- `token_sort_ratio_score`: `rapidfuzz.fuzz.token_sort_ratio(a, b) / 100`. -/
def token_sort_ratio_score (a b : String) : ℚ :=
  fuzzRatio100 (tokenSortPrep a) (tokenSortPrep b) / 100

/-- The `components` dict of `hybrid_score`, in insertion order. -/
def component_scores (env : PyEnv) (a b : String) : List (String × ℚ) :=
  [("simple_ratio", simple_ratio a b),
   ("normalized_ratio", normalized_ratio env a b),
   ("levenshtein_ratio", levenshtein_ratio a b),
   ("token_sort_ratio", token_sort_ratio_score a b)]

/-- `components[name]` — the modelled `FUZZY_HYBRID_WEIGHTS` keys are drawn
from the four component names, so the default-0 branch is never taken. -/
def componentGet (comps : List (String × ℚ)) (n : String) : ℚ :=
  ((comps.find? (fun p => p.1 == n)).map (fun p => p.2)).getD 0

def insertRat (x : ℚ) : List ℚ → List ℚ
  | [] => [x]
  | y :: ys => if x ≤ y then x :: y :: ys else y :: insertRat x ys

def sortRat (l : List ℚ) : List ℚ := l.foldr insertRat []

/-- `statistics.median`: sort, take the middle element (odd length) or the
mean of the two middle elements (even length). -/
def pyMedian (l : List ℚ) : ℚ :=
  let s := sortRat l
  let n := s.length
  if n % 2 = 1 then s.getD (n / 2) 0
  else (s.getD (n / 2 - 1) 0 + s.getD (n / 2) 0) / 2

/-- Python `max` on a nonempty list. -/
def pyListMax (l : List ℚ) : ℚ :=
  match l with
  | [] => 0
  | h :: t => t.foldl max h

/-- Python `min` on a nonempty list. -/
def pyListMin (l : List ℚ) : ℚ :=
  match l with
  | [] => 0
  | h :: t => t.foldl min h

/-- The weighted-mean aggregation of `hybrid_score` (its `agg_fn="mean"`
branch, also the `SUPPORTED_ALGORITHMS["hybrid_score"]` entry created with
`functools.partial(hybrid_score, agg_fn="mean")`). -/
def hybrid_mean (env : PyEnv) (a b : String) : ℚ :=
  env.weights.foldl (fun acc p => acc + componentGet (component_scores env a b) p.1 * p.2) 0

/-- `hybrid_score(a, b, agg_fn)`.  Note the `components` scores are computed
before `agg_fn` is examined, and an unsupported `agg_fn` raises only after
that (the Python local `scores = list(components.values())` is inlined). -/
def hybrid_score (env : PyEnv) (a b : String) (agg_fn : String) : Except Err ℚ :=
  if agg_fn = "mean" then .ok (hybrid_mean env a b)
  else if agg_fn = "median" then .ok (pyMedian ((component_scores env a b).map (fun p => p.2)))
  else if agg_fn = "max" then .ok (pyListMax ((component_scores env a b).map (fun p => p.2)))
  else if agg_fn = "min" then .ok (pyListMin ((component_scores env a b).map (fun p => p.2)))
  else .error (.unsupportedAggFn agg_fn)

/-- The keys of `SUPPORTED_ALGORITHMS`, in insertion order. -/
def supported_algorithm_keys : List String :=
  ["simple_ratio", "normalized_ratio", "levenshtein_ratio", "token_sort_ratio", "hybrid_score"]

/-- Modelled from the spec: `FUZZY_ALGO_ALIASES` is imported from
`charfinder.constants` by `fuzzymatchlib.py` but the constant is not defined
in the source files provided.  The spec describes a fixed alias table whose
user-facing names are the valid fuzzy algorithms
(`VALID_FUZZY_ALGOS = ("sequencematcher", "rapidfuzz", "levenshtein")`),
where `sequencematcher` and `rapidfuzz` are the two off-the-shelf presets
handled directly by `compute_similarity` and `levenshtein` selects the
internal `levenshtein_ratio` implementation.  This is the dict lookup
`FUZZY_ALGO_ALIASES[folded]`, `none` when the alias is absent. -/
def fuzzyAlgoAliasesGet (folded : String) : Option String :=
  if folded = "sequencematcher" then some "sequencematcher"
  else if folded = "rapidfuzz" then some "rapidfuzz"
  else if folded = "levenshtein" then some "levenshtein_ratio"
  else none

/-- `resolve_algorithm_name`: casefold, accept internal names directly, then
the alias table, otherwise `ValueError`. -/
def resolve_algorithm_name (name : String) : Except Err String :=
  let folded := pyCasefold name
  if supported_algorithm_keys.contains folded then .ok folded
  else
    match fuzzyAlgoAliasesGet folded with
    | some v => .ok v
    | none => .error (.unknownAlgorithm name)

def valid_fuzzy_match_modes : List String := ["single", "hybrid"]

def valid_hybrid_agg_funcs : List String := ["mean", "median", "max", "min"]

/-- `SUPPORTED_ALGORITHMS[key]` as a lookup returning the algorithm
function; `none` models a `KeyError`. -/
def supported_algorithm_fn (env : PyEnv) (key : String) : Option (String → String → ℚ) :=
  if key = "simple_ratio" then some simple_ratio
  else if key = "normalized_ratio" then some (normalized_ratio env)
  else if key = "levenshtein_ratio" then some levenshtein_ratio
  else if key = "token_sort_ratio" then some token_sort_ratio_score
  else if key = "hybrid_score" then some (hybrid_mean env)
  else none

/-- `compute_similarity(s1, s2, algorithm, mode, agg_fn)`: resolve the
algorithm, validate the mode, strip and uppercase both inputs, return `1.0`
for identical forms, then dispatch to the hybrid combination or the selected
single algorithm. -/
def compute_similarity (env : PyEnv) (s1 s2 : String)
    (algorithm mode agg_fn : String) : Except Err ℚ :=
  match resolve_algorithm_name algorithm with
  | .error e => .error e
  | .ok resolved_algo =>
    if valid_fuzzy_match_modes.contains mode = false then
      .error (.invalidMatchMode mode)
    else if env.upper (pyStrip s1) = env.upper (pyStrip s2) then .ok 1
    else if mode = "hybrid" then
      hybrid_score env (env.upper (pyStrip s1)) (env.upper (pyStrip s2)) agg_fn
    else if resolved_algo = "sequencematcher" then
      .ok (env.smRatio (env.upper (pyStrip s1)) (env.upper (pyStrip s2)))
    else if resolved_algo = "rapidfuzz" then
      .ok (fuzzRatio100 (env.upper (pyStrip s1)) (env.upper (pyStrip s2)) / 100)
    else
      match supported_algorithm_fn env resolved_algo with
      | some f => .ok (f (env.upper (pyStrip s1)) (env.upper (pyStrip s2)))
      | none => .error (.keyError resolved_algo)

/-- Unfolding `compute_similarity` once the algorithm has resolved. -/
theorem compute_similarity_resolved (env : PyEnv) (s1 s2 algorithm mode agg_fn v : String)
    (hv : resolve_algorithm_name algorithm = .ok v) :
    compute_similarity env s1 s2 algorithm mode agg_fn =
      (if valid_fuzzy_match_modes.contains mode = false then
        .error (.invalidMatchMode mode)
      else if env.upper (pyStrip s1) = env.upper (pyStrip s2) then .ok 1
      else if mode = "hybrid" then
        hybrid_score env (env.upper (pyStrip s1)) (env.upper (pyStrip s2)) agg_fn
      else if v = "sequencematcher" then
        .ok (env.smRatio (env.upper (pyStrip s1)) (env.upper (pyStrip s2)))
      else if v = "rapidfuzz" then
        .ok (fuzzRatio100 (env.upper (pyStrip s1)) (env.upper (pyStrip s2)) / 100)
      else
        match supported_algorithm_fn env v with
        | some f => .ok (f (env.upper (pyStrip s1)) (env.upper (pyStrip s2)))
        | none => .error (.keyError v)) := by
  unfold compute_similarity
  rw [hv]

/-- Unfolding `compute_similarity` when the algorithm fails to resolve. -/
theorem compute_similarity_unresolved (env : PyEnv) (s1 s2 algorithm mode agg_fn : String)
    (e : Err) (he : resolve_algorithm_name algorithm = .error e) :
    compute_similarity env s1 s2 algorithm mode agg_fn = .error e := by
  unfold compute_similarity
  rw [he]

/-! ### Exact and fuzzy matchers (`core/matching.py`) -/

/-- The truthiness test Python applies to the optional
`alternate_normalized` value: present and nonempty. -/
def altTruthy (alt : Option String) : Option String :=
  match alt with
  | some a => if a = "" then none else some a
  | none => none

/-- `find_exact_matches(norm_query, name_cache, exact_match_mode)`.  The
unknown-mode `ValueError` is raised inside the per-entry loop, so an empty
cache returns `[]` even for an unrecognized mode. -/
def find_exact_matches (norm_query : String) (name_cache : List (Char × CacheEntry))
    (exact_match_mode : String) : Except Err (List MatchTuple) :=
  match name_cache with
  | [] => .ok []
  | (char, names) :: rest =>
    if exact_match_mode = "substring" then
      let keep := pyIn norm_query names.normalized ||
        (match altTruthy names.alternateNormalized with
         | some alt => pyIn norm_query alt
         | none => false)
      match find_exact_matches norm_query rest exact_match_mode with
      | .error e => .error e
      | .ok tail =>
        .ok (if keep then ⟨char.toNat, char, names.original, none⟩ :: tail else tail)
    else if exact_match_mode = "word-subset" then
      let query_words := pySplit norm_query
      let name_words := pySplit names.normalized ++
        (match altTruthy names.alternateNormalized with
         | some alt => pySplit alt
         | none => [])
      let keep := query_words.all (fun w => name_words.contains w)
      match find_exact_matches norm_query rest exact_match_mode with
      | .error e => .error e
      | .ok tail =>
        .ok (if keep then ⟨char.toNat, char, names.original, none⟩ :: tail else tail)
    else .error (.unknownExactMatchMode exact_match_mode)

/-- The per-entry `score` of the fuzzy loop:
`max(filter(None, [score1, score2]), default=None)` — note `filter(None, ·)`
drops the value `0.0` as well as `None`. -/
def fuzzyScoreOf (score1 : ℚ) (score2 : Option ℚ) : Option ℚ :=
  match ([some score1, score2].filterMap id).filter (fun s => decide (s ≠ 0)) with
  | [] => none
  | h :: t => some (t.foldl max h)

/-- `find_fuzzy_matches(norm_query, name_cache, context)`: score every entry
against `normalized` and (when present and nonempty) `alternate_normalized`,
keep it when the surviving maximal score reaches the threshold. -/
def find_fuzzy_matches (env : PyEnv) (norm_query : String)
    (name_cache : List (Char × CacheEntry)) (context : FuzzyMatchContext) :
    Except Err (List MatchTuple) :=
  match name_cache with
  | [] => .ok []
  | (char, names) :: rest =>
    match compute_similarity env norm_query names.normalized
        context.fuzzyAlgo context.matchMode context.aggFn with
    | .error e => .error e
    | .ok score1 =>
      let score2res : Except Err (Option ℚ) :=
        match altTruthy names.alternateNormalized with
        | some alt =>
          match compute_similarity env norm_query alt
              context.fuzzyAlgo context.matchMode context.aggFn with
          | .error e => .error e
          | .ok s => .ok (some s)
        | none => .ok none
      match score2res with
      | .error e => .error e
      | .ok score2 =>
        match find_fuzzy_matches env norm_query rest context with
        | .error e => .error e
        | .ok tail =>
          match fuzzyScoreOf score1 score2 with
          | none => .ok tail
          | some score =>
            .ok (if context.threshold ≤ score then
              ⟨char.toNat, char, names.original, some score⟩ :: tail else tail)

/-! ### Alternate name source (`core/unicode_data_loader.py`) -/

def sys_maxunicode : Nat := 1114111

def isHexDigitCF (c : Char) : Bool :=
  ('0' ≤ c && c ≤ '9') || ('a' ≤ c && c ≤ 'f') || ('A' ≤ c && c ≤ 'F')

def hexDigitVal (c : Char) : Nat :=
  if '0' ≤ c && c ≤ '9' then c.toNat - '0'.toNat
  else if 'a' ≤ c && c ≤ 'f' then c.toNat - 'a'.toNat + 10
  else c.toNat - 'A'.toNat + 10

/-- `int(s, 16)` restricted to plain hexadecimal digit strings (the only
shape `UnicodeData.txt` contains); anything else raises `ValueError`,
modelled as `none`. -/
def hexToNat (s : String) : Option Nat :=
  if s ≠ "" && s.toList.all isHexDigitCF then
    some (s.toList.foldl (fun acc c => acc * 16 + hexDigitVal c) 0)
  else none

/-- One line of `UnicodeData.txt`: skip blank and `#` lines, require at
least 11 semicolon-separated fields, take field 0 as the hex codepoint and
field 10 as the alternate name; malformed hex or an out-of-range codepoint
(`chr` raises `ValueError`) silently skips the line. -/
def parseUnicodeDataLine (line : String) : Option (Nat × String) :=
  let stripped := pyStrip line
  if stripped = "" then none
  else if stripped.startsWith "#" then none
  else
    let fields := stripped.splitOn ";"
    if fields.length < 11 then none
    else
      let code_hex := fields.getD 0 ""
      let alt_name := pyStrip (fields.getD 10 "")
      if alt_name = "" then none
      else
        match hexToNat code_hex with
        | some n => if n ≤ sys_maxunicode then some (n, alt_name) else none
        | none => none

/-- The parsing loop of `load_alternate_names` (dict insertion order;
`dictGet` applies the dict's last-binding-wins overwrite rule). -/
def parseUnicodeData (text : String) : List (Nat × String) :=
  (text.splitOn "\n").filterMap parseUnicodeDataLine

/-- `load_alternate_names`: when the local file is missing, try the
download — any `URLError`/`TimeoutError`/`OSError` there is caught and
yields `{}`; when the local file exists, read it — a read failure there is
NOT caught and propagates. -/
def load_alternate_names (env : PyEnv) : Except Err (List (Nat × String)) :=
  match env.altLocalFile with
  | none =>
    match env.altDownload with
    | .ok text => .ok (parseUnicodeData text)
    | .error _ => .ok []
  | some (.ok text) => .ok (parseUnicodeData text)
  | some (.error e) => .error (.altSourceIOError e)

/-! ### Name cache build (`core/name_cache.py`) -/

/-- The body of the cache-building loop for one codepoint: skip unnamed
codepoints, store the original and normalized name, and — when a nonempty
alternate name exists — the alternate and its normalized form. -/
def buildCacheEntry (env : PyEnv) (alternate_names : List (Nat × String))
    (code : Nat) : Option (Char × CacheEntry) :=
  let name := env.uname code
  if name = "" then none
  else
    let base : CacheEntry := { original := name, normalized := normalize env name }
    match dictGet alternate_names code with
    | some alt =>
      if alt = "" then some (Char.ofNat code, base)
      else some (Char.ofNat code,
        { base with alternate := some alt, alternateNormalized := some (normalize env alt) })
    | none => some (Char.ofNat code, base)

/-- The cache-building loop over a list of codepoints, in order. -/
def buildNameCacheFrom (env : PyEnv) (alternate_names : List (Nat × String))
    (codes : List Nat) : List (Char × CacheEntry) :=
  codes.filterMap (buildCacheEntry env alternate_names)

/-- `build_name_cache(force_rebuild=·)`: return the persisted cache when it
exists and no rebuild is forced; otherwise load the alternate names (a
failure there propagates) and scan every codepoint `0..sys.maxunicode` in
ascending order.  The cache-file write failure path only logs and is
omitted. -/
def build_name_cache (env : PyEnv) (force_rebuild : Bool) :
    Except Err (List (Char × CacheEntry)) :=
  match force_rebuild, env.cacheFile with
  | false, some cached => .ok cached
  | _, _ =>
    match load_alternate_names env with
    | .error e => .error e
    | .ok alternate_names =>
      .ok (buildNameCacheFrom env alternate_names (List.range (sys_maxunicode + 1)))

/-! ### Match router (`core/finders.py`) -/

/-- `_validate_query`: empty-after-strip queries and unrecognized fuzzy
match modes are rejected before anything else runs (the `isinstance` check
cannot fail in a typed embedding). -/
def validate_query (query : String) (config : SearchConfig) : Except Err Unit :=
  if pyStrip query = "" then .error .emptyQuery
  else if valid_fuzzy_match_modes.contains config.fuzzyMatchMode = false then
    .error (.invalidMatchMode config.fuzzyMatchMode)
  else .ok ()

/-- `config.name_cache or build_name_cache(...)`: Python `or` also replaces
an empty dict, so an empty injected cache triggers a build. -/
def nameCacheOf (env : PyEnv) (config : SearchConfig) :
    Except Err (List (Char × CacheEntry)) :=
  match config.nameCache with
  | some c => if c.isEmpty then build_name_cache env false else .ok c
  | none => build_name_cache env false

/-- `_resolve_matches(query, config)`: validate, resolve the algorithm
(rewrapping its error), obtain the cache, always run the exact matcher, run
the fuzzy matcher iff `config.fuzzy and (config.prefer_fuzzy or not
exact_matches)`, and return the concatenation together with the
fuzzy-executed flag. -/
def resolve_matches (env : PyEnv) (query : String) (config : SearchConfig) :
    Except Err (List MatchTuple × Bool) :=
  match validate_query query config with
  | .error e => .error e
  | .ok _ =>
    match resolve_algorithm_name config.fuzzyAlgo with
    | .error e =>
      .error (match e with
        | .unknownAlgorithm n => .invalidAlgorithm n
        | e => e)
    | .ok resolved_algo =>
      match nameCacheOf env config with
      | .error e => .error e
      | .ok name_cache =>
        let norm_query := normalize env query
        match find_exact_matches norm_query name_cache config.exactMatchMode with
        | .error e => .error e
        | .ok exact_matches =>
          let run_fuzzy := config.fuzzy && (config.preferFuzzy || exact_matches.isEmpty)
          if run_fuzzy then
            match find_fuzzy_matches env norm_query name_cache
                { threshold := config.threshold, fuzzyAlgo := resolved_algo,
                  matchMode := config.fuzzyMatchMode, aggFn := config.aggFn,
                  query := query } with
            | .error e => .error e
            | .ok fuzzy_matches => .ok (exact_matches ++ fuzzy_matches, true)
          else .ok (exact_matches, false)

/-! ### Concrete environments used for witnesses and counterexamples

Each instantiates the external world on the exact inputs the corresponding
theorems touch: ASCII strings are NFC-stable and `str.upper` is the ASCII
uppercase map on them. -/

/-- An environment for ASCII-only data: `unicodedata.normalize("NFC", ·)`
and `("NFKD", ·)` are the identity on ASCII, `str.upper` is the ASCII
uppercase map, the hybrid weights are the uniform weights, the Unicode name
table is empty, no cache file or local `UnicodeData.txt` exists, and the
download fails with a `URLError`. -/
def asciiEnv : PyEnv where
  nfc := fun s => s
  nfkd := fun s => s
  upper := fun s => String.mk (s.toList.map Char.toUpper)
  smRatio := fun _ _ => 0
  weights := [("simple_ratio", 1/4), ("normalized_ratio", 1/4),
    ("levenshtein_ratio", 1/4), ("token_sort_ratio", 1/4)]
  uname := fun _ => ""
  cacheFile := none
  altLocalFile := none
  altDownload := .error "URLError"

/-! ### Symmetry of the base algorithms -/

theorem simple_ratio_comm (a b : String) : simple_ratio a b = simple_ratio b a := by
  unfold simple_ratio
  rw [zipEqCount_comm, Nat.max_comm, max_comm (a.length : ℚ) (b.length : ℚ)]

theorem normalized_ratio_comm (env : PyEnv) (a b : String) :
    normalized_ratio env a b = normalized_ratio env b a := by
  simp only [normalized_ratio]
  rw [zipEqCount_comm, Nat.max_comm,
    max_comm ((env.upper (env.nfc a)).length : ℚ) ((env.upper (env.nfc b)).length : ℚ)]

theorem levenshtein_ratio_comm (a b : String) :
    levenshtein_ratio a b = levenshtein_ratio b a := by
  unfold levenshtein_ratio
  rw [lev_dist_sub2_comm, Nat.add_comm a.length, add_comm (a.length : ℚ)]

theorem fuzzRatio100_comm (a b : String) : fuzzRatio100 a b = fuzzRatio100 b a := by
  unfold fuzzRatio100
  rw [indel_dist_comm, Nat.add_comm a.length, add_comm (a.length : ℚ)]

theorem token_sort_ratio_comm (a b : String) :
    token_sort_ratio_score a b = token_sort_ratio_score b a := by
  unfold token_sort_ratio_score
  rw [fuzzRatio100_comm]

theorem component_scores_comm (env : PyEnv) (a b : String) :
    component_scores env a b = component_scores env b a := by
  unfold component_scores
  rw [simple_ratio_comm, normalized_ratio_comm, levenshtein_ratio_comm, token_sort_ratio_comm]

theorem hybrid_mean_comm (env : PyEnv) (a b : String) :
    hybrid_mean env a b = hybrid_mean env b a := by
  unfold hybrid_mean
  rw [component_scores_comm]

theorem hybrid_score_comm (env : PyEnv) (a b agg_fn : String) :
    hybrid_score env a b agg_fn = hybrid_score env b a agg_fn := by
  unfold hybrid_score
  rw [hybrid_mean_comm, component_scores_comm]

/-- C8: Symmetry — each of the four base algorithms `simple_ratio`,
`normalized_ratio`, `levenshtein_ratio` and `token_sort_ratio` satisfies
`score(a, b) = score(b, a)`, and consequently every hybrid aggregation of
them (`hybrid_score`, for every aggregation-function selector) is symmetric
as well. -/
theorem base_algorithms_symmetric (env : PyEnv) (a b agg_fn : String) :
    simple_ratio a b = simple_ratio b a ∧
    normalized_ratio env a b = normalized_ratio env b a ∧
    levenshtein_ratio a b = levenshtein_ratio b a ∧
    token_sort_ratio_score a b = token_sort_ratio_score b a ∧
    hybrid_score env a b agg_fn = hybrid_score env b a agg_fn :=
  ⟨simple_ratio_comm a b, normalized_ratio_comm env a b, levenshtein_ratio_comm a b,
    token_sort_ratio_comm a b, hybrid_score_comm env a b agg_fn⟩

/-! ### The levenshtein_ratio closed form (claim C7) -/

/-- C7 (amended): `levenshtein_ratio(a, b)` equals
`1 − d(a, b) / (len(a) + len(b))` where `d` is the Levenshtein distance
with insertion/deletion cost 1 and substitution cost 2 — equivalently the
pure insertion/deletion edit distance — not the unit-cost edit distance. -/
theorem levenshtein_ratio_closed_form (a b : String) (h : a.length + b.length ≠ 0) :
    levenshtein_ratio a b =
      1 - (indel_dist a.toList b.toList : ℚ) / ((a.length : ℚ) + (b.length : ℚ)) := by
  have hq : ((a.length : ℚ) + (b.length : ℚ)) ≠ 0 := by exact_mod_cast h
  unfold levenshtein_ratio
  rw [if_neg h, lev_dist_sub2_eq_indel]
  field_simp

/-- Witness for C7: the closed form instantiated at `"A"`, `"B"`. -/
theorem levenshtein_ratio_closed_form_witness :
    ("A".length + "B".length ≠ 0) ∧
    levenshtein_ratio "A" "B" =
      1 - (indel_dist "A".toList "B".toList : ℚ) / (("A".length : ℚ) + ("B".length : ℚ)) :=
  ⟨by decide, levenshtein_ratio_closed_form "A" "B" (by decide)⟩

theorem lev_dist_sub2_A_B : lev_dist_sub2 "A".toList "B".toList = 2 := by
  have h1 : "A".toList = ['A'] := rfl
  have h2 : "B".toList = ['B'] := rfl
  rw [h1, h2, lev_dist_sub2_cons_cons, if_neg (by decide)]
  rw [lev_dist_sub2_nil_left, lev_dist_sub2_nil_right, lev_dist_sub2_nil_left]
  simp only [List.length_cons, List.length_nil]
  omega

theorem lev_dist_unit_A_B : lev_dist_unit "A".toList "B".toList = 1 := by
  have h1 : "A".toList = ['A'] := rfl
  have h2 : "B".toList = ['B'] := rfl
  rw [h1, h2]
  have hc : lev_dist_unit ['A'] ['B'] =
      if ('A' : Char) = 'B' then lev_dist_unit [] []
      else min (lev_dist_unit [] ['B'] + 1)
        (min (lev_dist_unit ['A'] [] + 1) (lev_dist_unit [] [] + 1)) := by
    simp [lev_dist_unit]
  rw [hc, if_neg (by decide)]
  have hl : lev_dist_unit [] ['B'] = 1 := by simp [lev_dist_unit]
  have hr : lev_dist_unit ['A'] [] = 1 := by simp [lev_dist_unit]
  have hn : lev_dist_unit ([] : List Char) [] = 0 := by simp [lev_dist_unit]
  rw [hl, hr, hn]
  omega

/-- Counterexample for C7: at `a = "A"`, `b = "B"` the code returns
`Levenshtein.ratio("A", "B") = 0`, while the spec's formula
`1 − unit_edit_distance / (len(a) + len(b))` gives `1 − 1/2 = 1/2`. -/
theorem levenshtein_ratio_not_unit_cost :
    levenshtein_ratio "A" "B" ≠
      1 - (lev_dist_unit "A".toList "B".toList : ℚ) / (("A".length : ℚ) + ("B".length : ℚ)) := by
  rw [lev_dist_unit_A_B]
  unfold levenshtein_ratio
  rw [if_neg (by decide), lev_dist_sub2_A_B]
  norm_num [String.length]

/-! ### The normalizer uses NFC, not NFKD (claim C3) -/

/-- An environment recording the behaviour of `unicodedata` and `str.upper`
on `"é"` (U+00E9) and its forms: `NFC("é") = "é"`, `NFKD("é") = "é"`,
`"é".upper() = "É"`, `"é".upper() = "É"`. -/
def envEacute : PyEnv where
  nfc := fun s => s
  nfkd := fun s => if s = "é" then "é" else s
  upper := fun s =>
    if s = "é" then "É" else if s = "é" then "É" else s
  smRatio := fun _ _ => 0
  weights := []
  uname := fun _ => ""
  cacheFile := none
  altLocalFile := none
  altDownload := .error "URLError"

/-- C3 (code bug): the code's `normalize` applies
`DEFAULT_NORMALIZATION_FORM = "NFC"` and so maps `"é"` to `"É"`, while the
claim — matching the function's own docstring ("using Unicode NFKD
normalization") and the repository's tests
(`test_nfkd_decomposition_behavior` expects `normalize("é") = "É"`) —
requires the uppercased NFKD form `"É"`, a different string. -/
theorem normalize_uses_nfc_not_nfkd :
    normalize envEacute "é" = "É" ∧
    envEacute.upper (envEacute.nfkd "é") = "É" ∧
    ("É" : String) ≠ "É" := by
  refine ⟨by decide, by decide, by decide⟩

/-! ### Resolution and totality lemmas for the similarity engine -/

theorem contains_true_iff (l : List String) (a : String) :
    l.contains a = true ↔ a ∈ l := by
  simp only [List.contains, List.elem_iff]

theorem contains_false_iff (l : List String) (a : String) :
    l.contains a = false ↔ a ∉ l := by
  rw [← contains_true_iff]
  cases h : l.contains a <;> simp [h]

/-- A successfully resolved algorithm name is one of the five internal
names or one of the two off-the-shelf presets. -/
theorem resolve_algorithm_name_ok_cases (name v : String)
    (h : resolve_algorithm_name name = .ok v) :
    v = "simple_ratio" ∨ v = "normalized_ratio" ∨ v = "levenshtein_ratio" ∨
    v = "token_sort_ratio" ∨ v = "hybrid_score" ∨
    v = "sequencematcher" ∨ v = "rapidfuzz" := by
  unfold resolve_algorithm_name at h
  by_cases hc : supported_algorithm_keys.contains (pyCasefold name) = true
  · rw [if_pos hc] at h
    cases h
    rw [contains_true_iff] at hc
    simp only [supported_algorithm_keys, List.mem_cons, List.not_mem_nil, or_false] at hc
    tauto
  · rw [if_neg hc] at h
    unfold fuzzyAlgoAliasesGet at h
    by_cases h1 : pyCasefold name = "sequencematcher"
    · rw [if_pos h1] at h; cases h; tauto
    · rw [if_neg h1] at h
      by_cases h2 : pyCasefold name = "rapidfuzz"
      · rw [if_pos h2] at h; cases h; tauto
      · rw [if_neg h2] at h
        by_cases h3 : pyCasefold name = "levenshtein"
        · rw [if_pos h3] at h; cases h; tauto
        · rw [if_neg h3] at h; cases h

theorem hybrid_score_total (env : PyEnv) (a b agg_fn : String)
    (h : valid_hybrid_agg_funcs.contains agg_fn = true) :
    ∃ r, hybrid_score env a b agg_fn = .ok r := by
  rw [contains_true_iff] at h
  simp only [valid_hybrid_agg_funcs, List.mem_cons, List.not_mem_nil, or_false] at h
  unfold hybrid_score
  rcases h with h | h | h | h <;> subst h <;> simp

/-- `compute_similarity` succeeds whenever the algorithm resolves, the mode
is valid, and — in hybrid mode — the aggregation function is valid. -/
theorem compute_similarity_total (env : PyEnv) (a b algo mode agg_fn : String)
    (halgo : ∃ v, resolve_algorithm_name algo = .ok v)
    (hmode : valid_fuzzy_match_modes.contains mode = true)
    (hagg : mode = "hybrid" → valid_hybrid_agg_funcs.contains agg_fn = true) :
    ∃ r, compute_similarity env a b algo mode agg_fn = .ok r := by
  obtain ⟨v, hv⟩ := halgo
  rw [compute_similarity_resolved env a b algo mode agg_fn v hv, hmode,
    if_neg (by decide)]
  by_cases heq : env.upper (pyStrip a) = env.upper (pyStrip b)
  · rw [if_pos heq]
    exact ⟨1, rfl⟩
  · rw [if_neg heq]
    by_cases hhy : mode = "hybrid"
    · rw [if_pos hhy]
      exact hybrid_score_total env _ _ agg_fn (hagg hhy)
    · rw [if_neg hhy]
      rcases resolve_algorithm_name_ok_cases algo v hv with h | h | h | h | h | h | h <;>
        subst h <;> simp [supported_algorithm_fn]

/-! ### Hybrid mode ignores the algorithm selector (claim C10) -/

/-- C10: in hybrid mode the algorithm selector is ignored — for any two
algorithm names that both resolve, `compute_similarity` with
`mode = "hybrid"` returns identical results (the resolved algorithm is
only consulted in single mode). -/
theorem hybrid_mode_ignores_algorithm (env : PyEnv) (s1 s2 a1 a2 agg_fn : String)
    (h1 : ∃ v, resolve_algorithm_name a1 = .ok v)
    (h2 : ∃ v, resolve_algorithm_name a2 = .ok v) :
    compute_similarity env s1 s2 a1 "hybrid" agg_fn =
      compute_similarity env s1 s2 a2 "hybrid" agg_fn := by
  obtain ⟨v1, hv1⟩ := h1
  obtain ⟨v2, hv2⟩ := h2
  rw [compute_similarity_resolved env s1 s2 a1 "hybrid" agg_fn v1 hv1,
    compute_similarity_resolved env s1 s2 a2 "hybrid" agg_fn v2 hv2]
  simp

/-- Witness for C10: `"levenshtein"` and `"rapidfuzz"` both resolve, and in
hybrid mode they produce the same score. -/
theorem hybrid_mode_ignores_algorithm_witness :
    resolve_algorithm_name "levenshtein" = .ok "levenshtein_ratio" ∧
    resolve_algorithm_name "rapidfuzz" = .ok "rapidfuzz" ∧
    compute_similarity asciiEnv "GRINNING" "GRNNING" "levenshtein" "hybrid" "mean" =
      compute_similarity asciiEnv "GRINNING" "GRNNING" "rapidfuzz" "hybrid" "mean" :=
  ⟨by decide, by decide,
    hybrid_mode_ignores_algorithm asciiEnv "GRINNING" "GRNNING" "levenshtein" "rapidfuzz"
      "mean" ⟨"levenshtein_ratio", by decide⟩ ⟨"rapidfuzz", by decide⟩⟩

/-! ### Configuration errors of the similarity engine (claim C5) -/

/-- C5 (amended): an unknown algorithm name and an unknown match mode each
raise their own distinct configuration error before any scoring; an unknown
aggregation function, however, raises only in hybrid mode and only when the
stripped, uppercased inputs differ — identical inputs short-circuit to
`1.0` without the aggregation function ever being validated. -/
theorem similarity_config_error_contract (env : PyEnv) (s1 s2 algo mode agg_fn : String) :
    (∀ n, resolve_algorithm_name algo = .error (.unknownAlgorithm n) →
      compute_similarity env s1 s2 algo mode agg_fn = .error (.unknownAlgorithm n)) ∧
    ((∃ v, resolve_algorithm_name algo = .ok v) →
      valid_fuzzy_match_modes.contains mode = false →
      compute_similarity env s1 s2 algo mode agg_fn = .error (.invalidMatchMode mode)) ∧
    ((∃ v, resolve_algorithm_name algo = .ok v) →
      valid_fuzzy_match_modes.contains mode = true →
      env.upper (pyStrip s1) = env.upper (pyStrip s2) →
      compute_similarity env s1 s2 algo mode agg_fn = .ok 1) ∧
    ((∃ v, resolve_algorithm_name algo = .ok v) →
      mode = "hybrid" →
      env.upper (pyStrip s1) ≠ env.upper (pyStrip s2) →
      valid_hybrid_agg_funcs.contains agg_fn = false →
      compute_similarity env s1 s2 algo mode agg_fn = .error (.unsupportedAggFn agg_fn)) := by
  refine ⟨?_, ?_, ?_, ?_⟩
  · intro n hn
    exact compute_similarity_unresolved env s1 s2 algo mode agg_fn _ hn
  · rintro ⟨v, hv⟩ hmode
    rw [compute_similarity_resolved env s1 s2 algo mode agg_fn v hv, hmode, if_pos rfl]
  · rintro ⟨v, hv⟩ hmode heq
    rw [compute_similarity_resolved env s1 s2 algo mode agg_fn v hv, hmode,
      if_neg (by decide), if_pos heq]
  · rintro ⟨v, hv⟩ hmode hne hagg
    subst hmode
    rw [contains_false_iff] at hagg
    simp only [valid_hybrid_agg_funcs, List.mem_cons, List.not_mem_nil,
      or_false, not_or] at hagg
    obtain ⟨hm1, hm2, hm3, hm4⟩ := hagg
    rw [compute_similarity_resolved env s1 s2 algo "hybrid" agg_fn v hv,
      if_neg (by decide), if_neg hne, if_pos rfl]
    unfold hybrid_score
    rw [if_neg hm1, if_neg hm2, if_neg hm3, if_neg hm4]

/-- Witness for C5: an unknown algorithm name produces the distinct
unknown-algorithm error, before any scoring. -/
theorem similarity_config_error_contract_witness :
    resolve_algorithm_name "notanalgo" = .error (.unknownAlgorithm "notanalgo") ∧
    compute_similarity asciiEnv "A" "B" "notanalgo" "single" "mean" =
      .error (.unknownAlgorithm "notanalgo") :=
  ⟨by decide,
    (similarity_config_error_contract asciiEnv "A" "B" "notanalgo" "single" "mean").1
      "notanalgo" (by decide)⟩

/-- Counterexample for C5: with an unknown aggregation function `"bogus"`
but equal inputs, hybrid-mode `compute_similarity` raises no error at all —
it returns `1.0` — contradicting "an unknown aggregation function raises a
configuration error before any similarity scoring is performed". -/
theorem agg_validation_skipped_on_equal_inputs :
    valid_hybrid_agg_funcs.contains "bogus" = false ∧
    compute_similarity asciiEnv "A" "A" "levenshtein" "hybrid" "bogus" = .ok 1 := by
  refine ⟨by decide, by decide⟩

/-! ### The fuzzy matcher characterized entrywise (claims C2, C4) -/

/-- The result of one similarity call, viewed as an `Option` (meaningful
whenever the call did not raise). -/
def simScoreOpt (env : PyEnv) (context : FuzzyMatchContext) (a b : String) : Option ℚ :=
  (compute_similarity env a b context.fuzzyAlgo context.matchMode context.aggFn).toOption

/-- The per-entry `score` of the fuzzy loop: the `filter(None, ·)`-surviving
maximum of the score against `normalized` and (when the alternate is present
and nonempty) against `alternate_normalized`. -/
def fuzzyEntryScore (env : PyEnv) (context : FuzzyMatchContext) (norm_query : String)
    (names : CacheEntry) : Option ℚ :=
  fuzzyScoreOf ((simScoreOpt env context norm_query names.normalized).getD 0)
    ((altTruthy names.alternateNormalized).bind
      (fun alt => simScoreOpt env context norm_query alt))

/-- What the fuzzy loop contributes for one cache entry: nothing when the
surviving score is absent or below the threshold, otherwise the scored
match tuple. -/
def fuzzyEntryResult (env : PyEnv) (context : FuzzyMatchContext) (norm_query : String)
    (char : Char) (names : CacheEntry) : Option MatchTuple :=
  match fuzzyEntryScore env context norm_query names with
  | none => none
  | some s =>
    if context.threshold ≤ s then some ⟨char.toNat, char, names.original, some s⟩ else none

/-- Whenever `find_fuzzy_matches` completes without raising, its output is
exactly the entrywise filter of the cache, in cache order. -/
theorem find_fuzzy_matches_ok_eq (env : PyEnv) (context : FuzzyMatchContext)
    (norm_query : String) (cache : List (Char × CacheEntry)) (l : List MatchTuple)
    (h : find_fuzzy_matches env norm_query cache context = .ok l) :
    l = cache.filterMap (fun ce => fuzzyEntryResult env context norm_query ce.1 ce.2) := by
  induction cache generalizing l with
  | nil =>
    simp only [find_fuzzy_matches] at h
    simp only [List.filterMap_nil]
    exact (Except.ok.inj h).symm
  | cons ce rest ih =>
    obtain ⟨char, names⟩ := ce
    simp only [find_fuzzy_matches] at h
    cases hc1 : compute_similarity env norm_query names.normalized context.fuzzyAlgo
        context.matchMode context.aggFn with
    | error e =>
      simp only [hc1] at h
      exact Except.noConfusion h
    | ok r1 =>
      simp only [hc1] at h
      have hscore1 : (simScoreOpt env context norm_query names.normalized).getD 0 = r1 := by
        simp [simScoreOpt, hc1, Except.toOption]
      cases haq : altTruthy names.alternateNormalized with
      | none =>
        simp only [haq] at h
        cases hrec : find_fuzzy_matches env norm_query rest context with
        | error e =>
          simp only [hrec] at h
          exact Except.noConfusion h
        | ok tail =>
          simp only [hrec] at h
          have hres : fuzzyEntryResult env context norm_query char names =
              match fuzzyScoreOf r1 none with
              | none => none
              | some s =>
                if context.threshold ≤ s then some ⟨char.toNat, char, names.original, some s⟩
                else none := by
            unfold fuzzyEntryResult fuzzyEntryScore
            rw [hscore1, haq]
            rfl
          rw [List.filterMap_cons, hres]
          cases hs : fuzzyScoreOf r1 none with
          | none =>
            simp only [hs] at h ⊢
            obtain rfl : tail = l := Except.ok.inj h
            exact ih tail hrec
          | some s =>
            simp only [hs] at h ⊢
            by_cases hts : context.threshold ≤ s
            · rw [if_pos hts] at h ⊢
              obtain rfl : (⟨char.toNat, char, names.original, some s⟩ : MatchTuple) :: tail = l :=
                Except.ok.inj h
              exact congrArg (List.cons _) (ih tail hrec)
            · rw [if_neg hts] at h ⊢
              obtain rfl : tail = l := Except.ok.inj h
              exact ih tail hrec
      | some alt =>
        simp only [haq] at h
        cases hc2 : compute_similarity env norm_query alt context.fuzzyAlgo
            context.matchMode context.aggFn with
        | error e =>
          simp only [hc2] at h
          exact Except.noConfusion h
        | ok r2 =>
          simp only [hc2] at h
          have hscore2 : (altTruthy names.alternateNormalized).bind
              (fun a => simScoreOpt env context norm_query a) = some r2 := by
            rw [haq]
            simp [simScoreOpt, hc2, Except.toOption]
          cases hrec : find_fuzzy_matches env norm_query rest context with
          | error e =>
          simp only [hrec] at h
          exact Except.noConfusion h
          | ok tail =>
            simp only [hrec] at h
            have hres : fuzzyEntryResult env context norm_query char names =
                match fuzzyScoreOf r1 (some r2) with
                | none => none
                | some s =>
                  if context.threshold ≤ s then
                    some ⟨char.toNat, char, names.original, some s⟩
                  else none := by
              unfold fuzzyEntryResult fuzzyEntryScore
              rw [hscore1, hscore2]
            rw [List.filterMap_cons, hres]
            cases hs : fuzzyScoreOf r1 (some r2) with
            | none =>
              simp only [hs] at h ⊢
              obtain rfl : tail = l := Except.ok.inj h
              exact ih tail hrec
            | some s =>
              simp only [hs] at h ⊢
              by_cases hts : context.threshold ≤ s
              · rw [if_pos hts] at h ⊢
                obtain rfl : (⟨char.toNat, char, names.original, some s⟩ : MatchTuple) :: tail = l :=
                  Except.ok.inj h
                exact congrArg (List.cons _) (ih tail hrec)
              · rw [if_neg hts] at h ⊢
                obtain rfl : tail = l := Except.ok.inj h
                exact ih tail hrec

/-- C2 (amended): whenever the fuzzy matcher completes without raising, its
output is exactly the entrywise filter of the cache in cache order: for each
entry, the candidate scores are the similarity against `normalized_name` and
(when a nonempty alternate exists) against `normalized_alternate`; the zero
candidates are discarded (`filter(None, ·)` treats `0.0` as `None`); the
entry is kept iff a nonzero candidate survives and the maximum surviving
candidate is `≥ threshold` (inclusive).  In particular threshold `0` returns
exactly the entries with a nonzero candidate — an entry all of whose
candidate scores are `0.0` is dropped even there — and threshold `1` keeps
only entries whose surviving maximum reaches `1.0`. -/
theorem fuzzy_matcher_contract (env : PyEnv) (context : FuzzyMatchContext)
    (norm_query : String) (cache : List (Char × CacheEntry)) (l : List MatchTuple)
    (h : find_fuzzy_matches env norm_query cache context = .ok l) :
    l = cache.filterMap (fun ce => fuzzyEntryResult env context norm_query ce.1 ce.2) :=
  find_fuzzy_matches_ok_eq env context norm_query cache l h

/-- Evaluation helper: single-mode `levenshtein_ratio` on distinct
stripped/uppercased inputs. -/
theorem csim_ascii_lev (s1 s2 : String)
    (hne : asciiEnv.upper (pyStrip s1) ≠ asciiEnv.upper (pyStrip s2)) :
    compute_similarity asciiEnv s1 s2 "levenshtein_ratio" "single" "mean" =
      .ok (levenshtein_ratio (asciiEnv.upper (pyStrip s1)) (asciiEnv.upper (pyStrip s2))) := by
  rw [compute_similarity_resolved asciiEnv s1 s2 "levenshtein_ratio" "single" "mean"
    "levenshtein_ratio" (by decide), if_neg (by decide), if_neg hne, if_neg (by decide),
    if_neg (by decide), if_neg (by decide)]
  rfl

theorem levenshtein_ratio_A_B : levenshtein_ratio "A" "B" = 0 := by
  unfold levenshtein_ratio
  rw [if_neg (by decide), lev_dist_sub2_A_B]
  have h1 : "A".length = 1 := rfl
  have h2 : "B".length = 1 := rfl
  rw [h1, h2]
  norm_num

theorem csim_A_B_zero :
    compute_similarity asciiEnv "A" "B" "levenshtein_ratio" "single" "mean" = .ok 0 := by
  have e1 : asciiEnv.upper (pyStrip "A") = "A" := by decide
  have e2 : asciiEnv.upper (pyStrip "B") = "B" := by decide
  rw [csim_ascii_lev "A" "B" (by decide), e1, e2, levenshtein_ratio_A_B]

/-- Evaluation helper: the fuzzy matcher on a one-entry cache without an
alternate name. -/
theorem find_fuzzy_matches_singleton (env : PyEnv) (norm_query : String) (char : Char)
    (names : CacheEntry) (context : FuzzyMatchContext) (r1 : ℚ)
    (hc1 : compute_similarity env norm_query names.normalized context.fuzzyAlgo
      context.matchMode context.aggFn = .ok r1)
    (halt : names.alternateNormalized = none) :
    find_fuzzy_matches env norm_query [(char, names)] context =
      .ok (match fuzzyScoreOf r1 none with
        | none => []
        | some s =>
          if context.threshold ≤ s then [⟨char.toNat, char, names.original, some s⟩]
          else []) := by
  simp only [find_fuzzy_matches, hc1, halt, altTruthy]
  cases fuzzyScoreOf r1 none <;> rfl

/-- Counterexample for C2: with threshold `0`, the claim requires every
cache entry to be returned; but for the query `"A"` against the single
entry `"B"` under the `levenshtein_ratio` algorithm the computed score is
exactly `0.0`, which `filter(None, ·)` discards, so the matcher returns the
empty list. -/
theorem fuzzy_zero_score_dropped :
    compute_similarity asciiEnv "A" "B" "levenshtein_ratio" "single" "mean" = .ok 0 ∧
    find_fuzzy_matches asciiEnv "A" [('B', ⟨"B", "B", none, none⟩)]
      ⟨0, "levenshtein_ratio", "single", "mean", "A"⟩ = .ok [] := by
  refine ⟨csim_A_B_zero, ?_⟩
  rw [find_fuzzy_matches_singleton asciiEnv "A" 'B' ⟨"B", "B", none, none⟩
    ⟨0, "levenshtein_ratio", "single", "mean", "A"⟩ 0 csim_A_B_zero rfl,
    show fuzzyScoreOf 0 none = none from by decide]

/-- Witness for C2: the amended characterization instantiated on the
one-entry cache of the counterexample. -/
theorem fuzzy_matcher_contract_witness :
    find_fuzzy_matches asciiEnv "A" [('B', ⟨"B", "B", none, none⟩)]
      ⟨0, "levenshtein_ratio", "single", "mean", "A"⟩ = .ok [] ∧
    ([] : List MatchTuple) =
      ([('B', (⟨"B", "B", none, none⟩ : CacheEntry))]).filterMap
        (fun ce => fuzzyEntryResult asciiEnv ⟨0, "levenshtein_ratio", "single", "mean", "A"⟩
          "A" ce.1 ce.2) :=
  have h : find_fuzzy_matches asciiEnv "A" [('B', ⟨"B", "B", none, none⟩)]
      ⟨0, "levenshtein_ratio", "single", "mean", "A"⟩ = .ok [] := by
    rw [find_fuzzy_matches_singleton asciiEnv "A" 'B' ⟨"B", "B", none, none⟩
      ⟨0, "levenshtein_ratio", "single", "mean", "A"⟩ 0 csim_A_B_zero rfl,
      show fuzzyScoreOf 0 none = none from by decide]
  ⟨h, fuzzy_matcher_contract asciiEnv ⟨0, "levenshtein_ratio", "single", "mean", "A"⟩
    "A" [('B', ⟨"B", "B", none, none⟩)] [] h⟩

/-- C4: threshold monotonicity — with the query, cache, algorithm, mode and
aggregation fixed, every match returned at the larger threshold `t2` is also
returned at the smaller threshold `t1`. -/
theorem fuzzy_threshold_monotonic (env : PyEnv) (context : FuzzyMatchContext)
    (t1 t2 : ℚ) (ht : t1 ≤ t2) (norm_query : String)
    (cache : List (Char × CacheEntry)) (l1 l2 : List MatchTuple)
    (h1 : find_fuzzy_matches env norm_query cache { context with threshold := t1 } = .ok l1)
    (h2 : find_fuzzy_matches env norm_query cache { context with threshold := t2 } = .ok l2) :
    ∀ m ∈ l2, m ∈ l1 := by
  have e1 := find_fuzzy_matches_ok_eq env _ norm_query cache l1 h1
  have e2 := find_fuzzy_matches_ok_eq env _ norm_query cache l2 h2
  intro m hm
  rw [e2] at hm
  rw [e1]
  obtain ⟨ce, hce, hres⟩ := List.mem_filterMap.mp hm
  apply List.mem_filterMap.mpr
  refine ⟨ce, hce, ?_⟩
  have hsc : fuzzyEntryScore env { context with threshold := t1 } norm_query ce.2 =
      fuzzyEntryScore env { context with threshold := t2 } norm_query ce.2 := rfl
  unfold fuzzyEntryResult at hres ⊢
  rw [hsc]
  cases hs : fuzzyEntryScore env { context with threshold := t2 } norm_query ce.2 with
  | none =>
    simp only [hs] at hres
    exact absurd hres (by simp)
  | some s =>
    simp only [hs] at hres ⊢
    by_cases hts : t2 ≤ s
    · rw [if_pos hts] at hres
      rw [if_pos (le_trans ht hts)]
      exact hres
    · rw [if_neg hts] at hres
      exact absurd hres (by simp)

theorem lev_dist_sub2_A_AB : lev_dist_sub2 "A".toList "AB".toList = 1 := by
  have h1 : "A".toList = ['A'] := rfl
  have h2 : "AB".toList = ['A', 'B'] := rfl
  rw [h1, h2, lev_dist_sub2_cons_cons, if_pos rfl, lev_dist_sub2_nil_left]
  rfl

theorem levenshtein_ratio_A_AB : levenshtein_ratio "A" "AB" = 2/3 := by
  unfold levenshtein_ratio
  rw [if_neg (by decide), lev_dist_sub2_A_AB]
  have h1 : "A".length = 1 := rfl
  have h2 : "AB".length = 2 := rfl
  rw [h1, h2]
  norm_num

theorem csim_A_AB :
    compute_similarity asciiEnv "A" "AB" "levenshtein_ratio" "single" "mean" = .ok (2/3) := by
  have e1 : asciiEnv.upper (pyStrip "A") = "A" := by decide
  have e2 : asciiEnv.upper (pyStrip "AB") = "AB" := by decide
  rw [csim_ascii_lev "A" "AB" (by decide), e1, e2, levenshtein_ratio_A_AB]

theorem fuzzyScoreOf_pos (r : ℚ) (hr : r ≠ 0) : fuzzyScoreOf r none = some r := by
  unfold fuzzyScoreOf
  simp [hr]

theorem ffm_A_AB (t : ℚ) (hkeep : t ≤ 2/3) :
    find_fuzzy_matches asciiEnv "A" [('A', ⟨"AB", "AB", none, none⟩)]
      ⟨t, "levenshtein_ratio", "single", "mean", "A"⟩ =
      .ok [⟨65, 'A', "AB", some (2/3)⟩] := by
  rw [find_fuzzy_matches_singleton asciiEnv "A" 'A' ⟨"AB", "AB", none, none⟩
    ⟨t, "levenshtein_ratio", "single", "mean", "A"⟩ (2/3) csim_A_AB rfl,
    fuzzyScoreOf_pos (2/3) (by norm_num)]
  simp only [hkeep, if_true]
  rfl

/-- Witness for C4: thresholds `0 ≤ 1/2` on a one-entry cache whose score
is `2/3`; both runs keep the entry, and monotonicity transports membership. -/
theorem fuzzy_threshold_monotonic_witness :
    ((0 : ℚ) ≤ 1/2) ∧
    find_fuzzy_matches asciiEnv "A" [('A', ⟨"AB", "AB", none, none⟩)]
      ⟨0, "levenshtein_ratio", "single", "mean", "A"⟩ =
      .ok [⟨65, 'A', "AB", some (2/3)⟩] ∧
    find_fuzzy_matches asciiEnv "A" [('A', ⟨"AB", "AB", none, none⟩)]
      ⟨1/2, "levenshtein_ratio", "single", "mean", "A"⟩ =
      .ok [⟨65, 'A', "AB", some (2/3)⟩] ∧
    ∀ m ∈ [(⟨65, 'A', "AB", some (2/3)⟩ : MatchTuple)],
      m ∈ [(⟨65, 'A', "AB", some (2/3)⟩ : MatchTuple)] :=
  have h0 : find_fuzzy_matches asciiEnv "A" [('A', ⟨"AB", "AB", none, none⟩)]
      ⟨0, "levenshtein_ratio", "single", "mean", "A"⟩ =
      .ok [⟨65, 'A', "AB", some (2/3)⟩] := ffm_A_AB 0 (by norm_num)
  have hh : find_fuzzy_matches asciiEnv "A" [('A', ⟨"AB", "AB", none, none⟩)]
      ⟨1/2, "levenshtein_ratio", "single", "mean", "A"⟩ =
      .ok [⟨65, 'A', "AB", some (2/3)⟩] := ffm_A_AB (1/2) (by norm_num)
  ⟨by norm_num, h0, hh,
    fuzzy_threshold_monotonic asciiEnv ⟨0, "levenshtein_ratio", "single", "mean", "A"⟩
      0 (1/2) (by norm_num) "A" [('A', ⟨"AB", "AB", none, none⟩)]
      [⟨65, 'A', "AB", some (2/3)⟩] [⟨65, 'A', "AB", some (2/3)⟩] h0 hh⟩

/-! ### The match router (claim C1) -/

/-- C1: the router contract.  Whenever `_resolve_matches` returns, there are
a resolved algorithm, a cache and the exact matches such that the fuzzy pass
ran iff `fuzzy and (prefer_fuzzy or exact empty)`, the returned flag is
exactly that decision, and the returned list is the exact matches followed —
only when the fuzzy pass ran — by the fuzzy matches, with no merge, dedup or
re-sort. -/
theorem router_contract (env : PyEnv) (query : String) (config : SearchConfig)
    (ms : List MatchTuple) (used : Bool)
    (h : resolve_matches env query config = .ok (ms, used)) :
    ∃ resolved_algo name_cache exact_matches,
      resolve_algorithm_name config.fuzzyAlgo = .ok resolved_algo ∧
      nameCacheOf env config = .ok name_cache ∧
      find_exact_matches (normalize env query) name_cache config.exactMatchMode =
        .ok exact_matches ∧
      used = (config.fuzzy && (config.preferFuzzy || exact_matches.isEmpty)) ∧
      ((used = false ∧ ms = exact_matches) ∨
        (used = true ∧ ∃ fuzzy_matches,
          find_fuzzy_matches env (normalize env query) name_cache
            ⟨config.threshold, resolved_algo, config.fuzzyMatchMode, config.aggFn, query⟩ =
            .ok fuzzy_matches ∧
          ms = exact_matches ++ fuzzy_matches)) := by
  unfold resolve_matches at h
  cases hval : validate_query query config with
  | error e =>
    simp only [hval] at h
    exact Except.noConfusion h
  | ok u =>
    simp only [hval] at h
    cases halgo : resolve_algorithm_name config.fuzzyAlgo with
    | error e =>
      simp only [halgo] at h
      exact Except.noConfusion h
    | ok resolved_algo =>
      simp only [halgo] at h
      cases hcache : nameCacheOf env config with
      | error e =>
        simp only [hcache] at h
        exact Except.noConfusion h
      | ok name_cache =>
        simp only [hcache] at h
        cases hexact : find_exact_matches (normalize env query) name_cache
            config.exactMatchMode with
        | error e =>
          simp only [hexact] at h
          exact Except.noConfusion h
        | ok exact_matches =>
          simp only [hexact] at h
          refine ⟨resolved_algo, name_cache, exact_matches, rfl, rfl, hexact, ?_⟩
          by_cases hrf : (config.fuzzy && (config.preferFuzzy || exact_matches.isEmpty)) = true
          · rw [if_pos hrf] at h
            cases hfz : find_fuzzy_matches env (normalize env query) name_cache
                ⟨config.threshold, resolved_algo, config.fuzzyMatchMode, config.aggFn,
                  query⟩ with
            | error e =>
              simp only [hfz] at h
              exact Except.noConfusion h
            | ok fuzzy_matches =>
              simp only [hfz] at h
              obtain ⟨h1, h2⟩ := Prod.mk.inj (Except.ok.inj h)
              subst h1
              subst h2
              exact ⟨hrf.symm, Or.inr ⟨rfl, fuzzy_matches, rfl, rfl⟩⟩
          · rw [if_neg hrf] at h
            obtain ⟨h1, h2⟩ := Prod.mk.inj (Except.ok.inj h)
            subst h1
            subst h2
            exact ⟨((Bool.not_eq_true _).mp hrf).symm, Or.inl ⟨rfl, rfl⟩⟩

/-- The configuration used by the router witness: fuzzy disabled, an
injected one-entry cache, substring exact matching. -/
def cfgRouterW : SearchConfig where
  fuzzy := false
  threshold := 7/10
  nameCache := some [('A', ⟨"AB", "AB", none, none⟩)]
  fuzzyAlgo := "levenshtein_ratio"
  fuzzyMatchMode := "single"
  exactMatchMode := "substring"
  aggFn := "mean"
  preferFuzzy := false

/-- Witness for C1: a full concrete run of the router with fuzzy disabled;
the exact matcher finds the single entry, the fuzzy pass is skipped, and the
flag is `false`. -/
theorem router_contract_witness :
    resolve_matches asciiEnv "A" cfgRouterW = .ok ([⟨65, 'A', "AB", none⟩], false) ∧
    (∃ resolved_algo name_cache exact_matches,
      resolve_algorithm_name cfgRouterW.fuzzyAlgo = .ok resolved_algo ∧
      nameCacheOf asciiEnv cfgRouterW = .ok name_cache ∧
      find_exact_matches (normalize asciiEnv "A") name_cache cfgRouterW.exactMatchMode =
        .ok exact_matches ∧
      false = (cfgRouterW.fuzzy && (cfgRouterW.preferFuzzy || exact_matches.isEmpty)) ∧
      ((false = false ∧ [(⟨65, 'A', "AB", none⟩ : MatchTuple)] = exact_matches) ∨
        (false = true ∧ ∃ fuzzy_matches,
          find_fuzzy_matches asciiEnv (normalize asciiEnv "A") name_cache
            ⟨cfgRouterW.threshold, resolved_algo, cfgRouterW.fuzzyMatchMode,
              cfgRouterW.aggFn, "A"⟩ = .ok fuzzy_matches ∧
          [(⟨65, 'A', "AB", none⟩ : MatchTuple)] = exact_matches ++ fuzzy_matches))) :=
  have hres : resolve_matches asciiEnv "A" cfgRouterW = .ok ([⟨65, 'A', "AB", none⟩], false) := by
    decide
  ⟨hres, router_contract asciiEnv "A" cfgRouterW [⟨65, 'A', "AB", none⟩] false hres⟩

/-! ### The name-cache build (claims C9, C6) -/

/-- Unfolding `build_name_cache` on the forced-rebuild path. -/
theorem build_name_cache_force (env : PyEnv) :
    build_name_cache env true =
      match load_alternate_names env with
      | .error e => .error e
      | .ok alternate_names =>
        .ok (buildNameCacheFrom env alternate_names (List.range (sys_maxunicode + 1))) := by
  unfold build_name_cache
  rfl

/-- C9: every entry of a freshly built cache satisfies
`normalized = normalize(original)`, and when an alternate name is present,
`alternate_normalized = normalize(alternate)`. -/
theorem cache_entry_normalization_invariant (env : PyEnv)
    (cache : List (Char × CacheEntry))
    (h : build_name_cache env true = .ok cache) :
    ∀ ce ∈ cache, ce.2.normalized = normalize env ce.2.original ∧
      ∀ a, ce.2.alternate = some a →
        ce.2.alternateNormalized = some (normalize env a) := by
  rw [build_name_cache_force] at h
  cases hload : load_alternate_names env with
  | error e =>
    simp only [hload] at h
    exact Except.noConfusion h
  | ok alternate_names =>
    simp only [hload] at h
    obtain rfl : buildNameCacheFrom env alternate_names (List.range (sys_maxunicode + 1)) =
        cache := Except.ok.inj h
    intro ce hce
    unfold buildNameCacheFrom at hce
    obtain ⟨code, hcode, hbuild⟩ := List.mem_filterMap.mp hce
    unfold buildCacheEntry at hbuild
    by_cases hname : env.uname code = ""
    · rw [if_pos hname] at hbuild
      exact absurd hbuild (by simp)
    · rw [if_neg hname] at hbuild
      cases halt : dictGet alternate_names code with
      | none =>
        simp only [halt] at hbuild
        obtain rfl := Option.some.inj hbuild
        refine ⟨rfl, ?_⟩
        intro a ha
        exact absurd ha (by simp)
      | some alt_name =>
        simp only [halt] at hbuild
        by_cases haltne : alt_name = ""
        · rw [if_pos haltne] at hbuild
          obtain rfl := Option.some.inj hbuild
          refine ⟨rfl, ?_⟩
          intro a ha
          exact absurd ha (by simp)
        · rw [if_neg haltne] at hbuild
          obtain rfl := Option.some.inj hbuild
          refine ⟨rfl, ?_⟩
          intro a ha
          obtain rfl := Option.some.inj ha
          rfl

/-- The ASCII environment with exactly one named codepoint, U+0041. -/
def envUnameA : PyEnv :=
  { asciiEnv with uname := fun code => if code = 65 then "LATIN CAPITAL LETTER A" else "" }

/-- Witness for C9: a concrete forced build over the full codepoint range
with one named codepoint; its entry satisfies the invariant. -/
theorem cache_entry_normalization_invariant_witness :
    build_name_cache envUnameA true =
      .ok (buildNameCacheFrom envUnameA [] (List.range (sys_maxunicode + 1))) ∧
    ('A', (⟨"LATIN CAPITAL LETTER A", "LATIN CAPITAL LETTER A", none, none⟩ : CacheEntry)) ∈
      buildNameCacheFrom envUnameA [] (List.range (sys_maxunicode + 1)) ∧
    ((⟨"LATIN CAPITAL LETTER A", "LATIN CAPITAL LETTER A", none, none⟩ :
        CacheEntry).normalized =
      normalize envUnameA
        (⟨"LATIN CAPITAL LETTER A", "LATIN CAPITAL LETTER A", none, none⟩ :
          CacheEntry).original ∧
      ∀ a, (⟨"LATIN CAPITAL LETTER A", "LATIN CAPITAL LETTER A", none, none⟩ :
          CacheEntry).alternate = some a →
        (⟨"LATIN CAPITAL LETTER A", "LATIN CAPITAL LETTER A", none, none⟩ :
          CacheEntry).alternateNormalized = some (normalize envUnameA a)) :=
  have hb : build_name_cache envUnameA true =
      .ok (buildNameCacheFrom envUnameA [] (List.range (sys_maxunicode + 1))) := by
    rw [build_name_cache_force]
    rfl
  have hmem : ('A',
      (⟨"LATIN CAPITAL LETTER A", "LATIN CAPITAL LETTER A", none, none⟩ : CacheEntry)) ∈
      buildNameCacheFrom envUnameA [] (List.range (sys_maxunicode + 1)) := by
    unfold buildNameCacheFrom
    apply List.mem_filterMap.mpr
    refine ⟨65, ?_, by decide⟩
    simp [List.mem_range, sys_maxunicode]
  ⟨hb, hmem, cache_entry_normalization_invariant envUnameA _ hb _ hmem⟩

/-- C6 (amended): failures of the download path are isolated — when no
local `UnicodeData.txt` exists and the download raises, the forced cache
build still completes and every entry has its alternate fields omitted.
(A read failure of an existing local file, by contrast, propagates: see the
counterexample.) -/
theorem download_failure_isolated (env : PyEnv) (e : String)
    (hlocal : env.altLocalFile = none) (hdl : env.altDownload = .error e) :
    ∃ cache, build_name_cache env true = .ok cache ∧
      ∀ ce ∈ cache, ce.2.alternate = none ∧ ce.2.alternateNormalized = none := by
  have hload : load_alternate_names env = .ok [] := by
    unfold load_alternate_names
    rw [hlocal, hdl]
  refine ⟨buildNameCacheFrom env [] (List.range (sys_maxunicode + 1)), ?_, ?_⟩
  · rw [build_name_cache_force, hload]
  · intro ce hce
    unfold buildNameCacheFrom at hce
    obtain ⟨code, hcode, hbuild⟩ := List.mem_filterMap.mp hce
    unfold buildCacheEntry at hbuild
    by_cases hname : env.uname code = ""
    · rw [if_pos hname] at hbuild
      exact absurd hbuild (by simp)
    · rw [if_neg hname] at hbuild
      obtain rfl := Option.some.inj hbuild
      exact ⟨rfl, rfl⟩

/-- The ASCII environment where the local `UnicodeData.txt` exists but
reading it raises a `PermissionError`. -/
def envBadAltFile : PyEnv :=
  { asciiEnv with altLocalFile := some (.error "PermissionError") }

/-- Counterexample for C6: the claim says no failure of the alternate-name
source ever aborts the build; but when the local file exists and reading it
fails, the `OSError` is raised outside the loader's `try` block, propagates
through `build_name_cache`, and the build aborts with an error. -/
theorem local_file_error_aborts_build :
    build_name_cache envBadAltFile true = .error (.altSourceIOError "PermissionError") := by
  rw [build_name_cache_force]
  rfl

/-- Witness for C6: the download-failure environment instantiated. -/
theorem download_failure_isolated_witness :
    asciiEnv.altLocalFile = none ∧ asciiEnv.altDownload = .error "URLError" ∧
    ∃ cache, build_name_cache asciiEnv true = .ok cache ∧
      ∀ ce ∈ cache, ce.2.alternate = none ∧ ce.2.alternateNormalized = none :=
  ⟨rfl, rfl, download_failure_isolated asciiEnv "URLError" rfl rfl⟩

end Charfinder
